import Mathlib

/-!
Verification of the dynazord data-mapping core.

A shallow embedding, in Lean 4, of the schema-driven data-mapping layer:
the per-property read/write pipelines, the validation engine, primary-key
marshalling (all translated from `src/helpers/data.js`), the update-document
compile phase (sequencing translated from the `updateDocument` method), and
a spec-modelled type registry / attribute-value codec (the registry module
itself is not part of the sources at hand, so it is reconstructed from the
specification's description of the built-in kinds).

JavaScript values are modelled by the inductive `Value` below, with an
explicit `undef` constructor so that the absent / `undefined` distinction of
the pipelines is faithful.  JavaScript objects (documents, wire records) are
modelled as association lists in insertion order, which matches `for … in`
iteration order for string keys.  Asynchronous transforms are modelled as
pure functions (the engine awaits each step sequentially).  JavaScript
numbers are modelled as integers: the store carries numbers as decimal
strings and every claim under study is about integral values.
-/

namespace Dynazord

/-- A native JavaScript value as seen by the mapping layer: `undef` is the
`undefined` sentinel, `date` is a `Date` object carried as epoch
milliseconds, `list`/`map` are arrays and plain objects. -/
inductive Value : Type where
  | undef : Value
  | null : Value
  | str (s : String) : Value
  | num (n : Int) : Value
  | bool (b : Bool) : Value
  | date (t : Int) : Value
  | list (xs : List Value) : Value
  | map (kvs : List (String × Value)) : Value

/-- The store's tagged wire format (`S`/`N`/`BOOL`/`NULL`/`L`/`M` attribute
values).  Numbers are carried as decimal strings. -/
inductive Wire : Type where
  | S (s : String) : Wire
  | N (s : String) : Wire
  | BOOL (b : Bool) : Wire
  | NULL : Wire
  | L (xs : List Wire) : Wire
  | M (kvs : List (String × Wire)) : Wire

/-- JavaScript truthiness of a modelled value (`undefined`, `null`, `0`,
`""` and `false` are falsy; every object — date, array, plain object — is
truthy). -/
def truthy : Value → Bool
  | .undef => false
  | .null => false
  | .str s => s ≠ ""
  | .num n => n ≠ 0
  | .bool b => b
  | .date _ => true
  | .list _ => true
  | .map _ => true

/-- Is this value the `undefined` sentinel? -/
def isUndef : Value → Bool
  | .undef => true
  | _ => false

/-- First-match association-list lookup: `obj[key]` on a plain object. -/
def lookupStr {α : Type} : List (String × α) → String → Option α
  | [], _ => none
  | (k', v) :: rest, k => if k' = k then some v else lookupStr rest k

/-- The test `obj.hasOwnProperty(key)` on a plain object. -/
def containsKey {α : Type} (l : List (String × α)) (k : String) : Bool :=
  (lookupStr l k).isSome

/-- The assignment `obj[key] = v` on a plain object: replaces the value in place when the
key exists, appends the key otherwise (JavaScript insertion order). -/
def setKey {α : Type} : List (String × α) → String → α → List (String × α)
  | [], k, v => [(k, v)]
  | (k', v') :: rest, k, v =>
      if k' = k then (k, v) :: rest else (k', v') :: setKey rest k v

/-! ## Decimal strings

The store carries numeric attribute values as decimal strings; template
interpolation of a JavaScript integer also yields its decimal
representation.  `natDecChars`/`intDecStr` produce that representation and
`parseNatChars`/`parseIntChars` read it back. -/

/-- The ASCII digit character for `n < 10`. -/
def digitChar (n : Nat) : Char := Char.ofNat (48 + n)

/-- The numeric value of an ASCII digit character. -/
def digitVal (c : Char) : Nat := c.toNat - 48

/-- Is `c` an ASCII decimal digit? -/
def isDigitChar (c : Char) : Bool := 48 ≤ c.toNat && c.toNat ≤ 57

/-- Most-significant-digit-first decimal digits of `n`, with explicit fuel
so the definition reduces by `rfl`/`decide`. -/
def natDecAux : Nat → Nat → List Char
  | 0, _ => []
  | fuel + 1, n =>
      if n < 10 then [digitChar n]
      else natDecAux fuel (n / 10) ++ [digitChar (n % 10)]

/-- Decimal digit string of a natural number. -/
def natDecChars (n : Nat) : List Char := natDecAux (n + 1) n

/-- Parse a non-empty all-digit character list as a natural number. -/
def parseNatChars (cs : List Char) : Option Nat :=
  if cs.isEmpty then none
  else if cs.all isDigitChar then some (cs.foldl (fun a c => a * 10 + digitVal c) 0)
  else none

/-- Decimal string of an integer (`-` sign prefix for negatives). -/
def intDecStr (n : Int) : String :=
  if n < 0 then String.mk ('-' :: natDecChars (-n).toNat)
  else String.mk (natDecChars n.toNat)

/-- Parse the decimal string of an integer. -/
def parseIntChars : List Char → Option Int
  | '-' :: rest => (parseNatChars rest).map (fun m => -(Int.ofNat m))
  | cs => (parseNatChars cs).map Int.ofNat

/-! ## Gregorian calendar and ISO-8601 timestamps

The spec-modelled timestamp type stores a native date either as an epoch
number or as an ISO-8601 string (`YYYY-MM-DDTHH:MM:SS.mmmZ`).  The model
covers the window from 1970-01-01 up to year 9999, which keeps the string
form fixed-width. -/

/-- Gregorian leap-year rule. -/
def isLeap (y : Nat) : Bool := (y % 4 == 0 && y % 100 != 0) || y % 400 == 0

/-- Number of days in year `y`. -/
def daysInYear (y : Nat) : Nat := if isLeap y then 366 else 365

/-- The twelve month lengths of year `y`. -/
def monthLengths (y : Nat) : List Nat :=
  [31, if isLeap y then 29 else 28, 31, 30, 31, 30, 31, 31, 30, 31, 30, 31]

/-- Total days in the `k` consecutive years starting at year `y`. -/
def yearsSum : Nat → Nat → Nat
  | _, 0 => 0
  | y, k + 1 => daysInYear y + yearsSum (y + 1) k

/-- Fuelled year scan: starting at year `y`, peel whole years off a day
count, returning the final year and the day-of-year remainder. -/
def splitYearsAux : Nat → Nat → Nat → Nat × Nat
  | 0, y, d => (y, d)
  | fuel + 1, y, d =>
      if d < daysInYear y then (y, d)
      else splitYearsAux fuel (y + 1) (d - daysInYear y)

/-- Year and day-of-year of a day count relative to the start of year `y`. -/
def splitYears (y d : Nat) : Nat × Nat := splitYearsAux (d + 1) y d

/-- Zero-based month index and day-of-month of a day-of-year, against a
list of month lengths. -/
def splitMonths : Nat → List Nat → Nat × Nat
  | d, [] => (0, d)
  | d, len :: rest =>
      if d < len then (0, d)
      else
        let r := splitMonths (d - len) rest
        (r.1 + 1, r.2)

/-- Two-digit zero-padded decimal representation. -/
def pad2 (n : Nat) : List Char := [digitChar (n / 10 % 10), digitChar (n % 10)]

/-- Three-digit zero-padded decimal representation. -/
def pad3 (n : Nat) : List Char :=
  [digitChar (n / 100 % 10), digitChar (n / 10 % 10), digitChar (n % 10)]

/-- Four-digit zero-padded decimal representation. -/
def pad4 (n : Nat) : List Char :=
  [digitChar (n / 1000 % 10), digitChar (n / 100 % 10),
   digitChar (n / 10 % 10), digitChar (n % 10)]

/-- Numeric value of two digit characters. -/
def val2 (a b : Char) : Nat := digitVal a * 10 + digitVal b

/-- Numeric value of three digit characters. -/
def val3 (a b c : Char) : Nat := (digitVal a * 10 + digitVal b) * 10 + digitVal c

/-- Numeric value of four digit characters. -/
def val4 (a b c d : Char) : Nat :=
  ((digitVal a * 10 + digitVal b) * 10 + digitVal c) * 10 + digitVal d

/-- ISO-8601 representation (`YYYY-MM-DDTHH:MM:SS.mmmZ`) of an epoch
expressed in milliseconds since 1970-01-01T00:00:00Z. -/
def isoChars (t : Nat) : List Char :=
  let days := t / 86400000
  let rem := t % 86400000
  let yd := splitYears 1970 days
  let md := splitMonths yd.2 (monthLengths yd.1)
  pad4 yd.1 ++ '-' :: (pad2 (md.1 + 1) ++ '-' :: (pad2 (md.2 + 1) ++ 'T' ::
    (pad2 (rem / 3600000) ++ ':' :: (pad2 (rem / 60000 % 60) ++ ':' ::
      (pad2 (rem / 1000 % 60) ++ '.' :: (pad3 (rem % 1000) ++ ['Z']))))))

/-- ISO-8601 string of an epoch in milliseconds. -/
def isoStr (t : Nat) : String := String.mk (isoChars t)

/-- Parse a fixed-width ISO-8601 timestamp back into epoch milliseconds. -/
def parseIsoChars : List Char → Option Nat
  | [y1, y2, y3, y4, '-', m1, m2, '-', d1, d2, 'T', h1, h2, ':', i1, i2, ':',
     s1, s2, '.', x1, x2, x3, 'Z'] =>
      if [y1, y2, y3, y4, m1, m2, d1, d2, h1, h2, i1, i2, s1, s2,
          x1, x2, x3].all isDigitChar then
        let y := val4 y1 y2 y3 y4
        let mm := val2 m1 m2
        let dd := val2 d1 d2
        if 1970 ≤ y ∧ 1 ≤ mm ∧ mm ≤ 12 ∧ 1 ≤ dd then
          some ((yearsSum 1970 (y - 1970) + ((monthLengths y).take (mm - 1)).sum
              + (dd - 1)) * 86400000
            + val2 h1 h2 * 3600000 + val2 i1 i2 * 60000 + val2 s1 s2 * 1000
            + val3 x1 x2 x3)
        else none
      else none
  | _ => none

/-- Parse an ISO-8601 string back into epoch milliseconds. -/
def parseIso (s : String) : Option Nat := parseIsoChars s.data

/-- The modelled timestamp window: every epoch below year 10000. -/
def isoLimit : Nat := 86400000 * yearsSum 1970 8030

/-! ## Property schemas and type descriptors -/

/-- Storage-format override for the timestamp kind (`format: Number` stores
the epoch number, the default stores the ISO-8601 string). -/
inductive Fmt : Type where
  | asNumber : Fmt
  | asString : Fmt
deriving DecidableEq

/-- The lifecycle hooks a write operation may name (`opts.fieldHook`). -/
inductive Hook : Type where
  | onCreate : Hook
  | onUpdate : Hook
  | onUpsert : Hook
deriving DecidableEq

/-- One entry of a property's `validate` map: either a caller-supplied
validator function, or a non-function parameter that selects a same-named
built-in validator on the type. -/
inductive Rule : Type where
  | func (f : Value → Except String Unit)
  | param (p : Value)

/-- A per-field property spec: type name, required flag, closed `enum` set,
storage `format` override, `get`/`set` transforms, lifecycle hooks and the
`validate` map, in declaration order. -/
structure PropertySpec : Type where
  type : String
  required : Bool
  enum : Option (List String)
  format : Option Fmt
  set : Option (Value → Value)
  get : Option (Value → Value)
  onCreate : Option (Value → Value)
  onUpdate : Option (Value → Value)
  onUpsert : Option (Value → Value)
  validate : List (String × Rule)

/-- A property spec carrying only a type name. -/
def mkProp (t : String) : PropertySpec :=
  PropertySpec.mk t false none none none none none none none []

/-- The hook function a property declares under a hook name, if any. -/
def hookFn (p : PropertySpec) : Hook → Option (Value → Value)
  | .onCreate => p.onCreate
  | .onUpdate => p.onUpdate
  | .onUpsert => p.onUpsert

/-- A type descriptor from the registry: `set`/`get` transforms receiving
the property spec for context, the structural validator (the `type` entry
of the type's `validate` map) and the remaining named built-in
validators, which receive `(value, ruleParameter, propertySpec)`. -/
structure TypeDesc : Type where
  name : String
  set : Option (Value → Option PropertySpec → Value)
  get : Option (Value → Option PropertySpec → Value)
  validateType : Option (Value → Option PropertySpec → Except String Unit)
  validators : List (String × (Value → Value → Option PropertySpec → Except String Unit))

/-! ## The attribute-value codec

Modelled from the spec: `encode(value) -> WireValue` / `decode(wireValue)
-> value` over the discriminated union of string / number / boolean / null
/ list / map.  `encode(undefined)` is an error, `encode(null)` yields the
null tag, numbers travel as decimal strings, lists and maps recurse
structurally.  (The codec module is not among the sources at hand.) -/

mutual

/-- Is the value in the codec's domain (no `undefined` and no raw date at
any depth)? -/
def plain : Value → Bool
  | .undef => false
  | .null => true
  | .str _ => true
  | .num _ => true
  | .bool _ => true
  | .date _ => false
  | .list xs => plainList xs
  | .map kvs => plainMap kvs

/-- All members of the list are codec-encodable. -/
def plainList : List Value → Bool
  | [] => true
  | v :: rest => plain v && plainList rest

/-- All values of the object are codec-encodable. -/
def plainMap : List (String × Value) → Bool
  | [] => true
  | (_, v) :: rest => plain v && plainMap rest

end

mutual

/-- Encode a native value in the tagged wire format. -/
def encodeV : Value → Except String Wire
  | .undef => .error "cannot encode undefined"
  | .null => .ok .NULL
  | .str s => .ok (.S s)
  | .num n => .ok (.N (intDecStr n))
  | .bool b => .ok (.BOOL b)
  | .date _ => .error "cannot encode a raw date"
  | .list xs => (encodeList xs).map .L
  | .map kvs => (encodeMap kvs).map .M

/-- Encode the members of a list, in order. -/
def encodeList : List Value → Except String (List Wire)
  | [] => .ok []
  | v :: rest =>
      (encodeV v).bind fun w => (encodeList rest).map fun ws => w :: ws

/-- Encode the values of an object, in order. -/
def encodeMap : List (String × Value) → Except String (List (String × Wire))
  | [] => .ok []
  | (k, v) :: rest =>
      (encodeV v).bind fun w => (encodeMap rest).map fun ws => (k, w) :: ws

end

mutual

/-- Decode a tagged wire value back to a native value; a numeric tag whose
payload is not a decimal integer is rejected. -/
def decodeW : Wire → Except String Value
  | .S s => .ok (.str s)
  | .N s =>
      match parseIntChars s.data with
      | some n => .ok (.num n)
      | none => .error "InvalidNumber"
  | .BOOL b => .ok (.bool b)
  | .NULL => .ok .null
  | .L ws => (decodeList ws).map .list
  | .M kws => (decodeMap kws).map .map

/-- Decode the members of a wire list, in order. -/
def decodeList : List Wire → Except String (List Value)
  | [] => .ok []
  | w :: rest =>
      (decodeW w).bind fun v => (decodeList rest).map fun vs => v :: vs

/-- Decode the values of a wire object, in order. -/
def decodeMap : List (String × Wire) → Except String (List (String × Value))
  | [] => .ok []
  | (k, w) :: rest =>
      (decodeW w).bind fun v => (decodeMap rest).map fun vs => (k, v) :: vs

end

/-! ## The type registry

Modelled from the spec: a fixed catalog of built-in kinds — text, number,
boolean, timestamp (native date as ISO-string or epoch-number, selectable
via `format`), enumerated text, list and map.  The registry module is not
among the sources at hand, so each descriptor follows §4.1 of the spec:
`marshal` is the type-level `set` transform followed by the codec,
`unmarshal` is the codec followed by the type-level `get` transform, and
each kind's structural validator accepts exactly the values of its kind
(dates within the modelled 1970-9999 window, enumerated text within the
property's closed set, lists/maps of codec-encodable members). -/

/-- Upper bound of the modelled timestamp window, as an epoch integer. -/
def dateMax : Int := Int.ofNat isoLimit

/-- The structural acceptance predicate of each built-in kind. -/
def typeAccepts : String → Option PropertySpec → Value → Bool
  | "string", _, .str _ => true
  | "number", _, .num _ => true
  | "boolean", _, .bool _ => true
  | "date", _, .date t => decide (0 ≤ t) && decide (t < dateMax)
  | "enum", some p, .str s =>
      match p.enum with
      | some es => es.contains s
      | none => false
  | "list", _, .list xs => plainList xs
  | "map", _, .map kvs => plainMap kvs
  | _, _, _ => false

/-- The structural (`type`) validator of a built-in kind, failing on any
value its kind does not accept. -/
def mkValidateType (name : String) : Value → Option PropertySpec → Except String Unit :=
  fun v p =>
    if typeAccepts name p v then .ok ()
    else .error ("Expected value to be a valid " ++ name)

/-- Built-in `notNull` validator of the text kind (selected by a
non-function `notNull` rule parameter). -/
def notNullValidator : Value → Value → Option PropertySpec → Except String Unit :=
  fun v _ _ =>
    match v with
    | .null => .error "Expected value to not be null"
    | _ => .ok ()

/-- Built-in `notEmpty` validator of the text kind. -/
def notEmptyValidator : Value → Value → Option PropertySpec → Except String Unit :=
  fun v _ _ =>
    match v with
    | .str "" => .error "Expected value to not be empty"
    | _ => .ok ()

/-- Timestamp `set` transform: a native date becomes the epoch number when
the property declares `format: Number`, the ISO-8601 string otherwise. -/
def dateSet : Value → Option PropertySpec → Value :=
  fun v p =>
    match v with
    | .date t =>
        match p with
        | some pp =>
            match pp.format with
            | some .asNumber => .num t
            | _ => .str (isoStr t.toNat)
        | none => .str (isoStr t.toNat)
    | _ => v

/-- Timestamp `get` transform: rebuild the native date from the stored
epoch number or ISO-8601 string, according to the property's format. -/
def dateGet : Value → Option PropertySpec → Value :=
  fun v p =>
    match (match p with | some pp => pp.format | none => none) with
    | some .asNumber =>
        match v with
        | .num t => .date t
        | _ => v
    | _ =>
        match v with
        | .str s =>
            match parseIso s with
            | some t => .date (Int.ofNat t)
            | none => v
        | _ => v

/-- The text kind. -/
def stringType : TypeDesc :=
  TypeDesc.mk "string" none none (some (mkValidateType "string"))
    [("notNull", notNullValidator), ("notEmpty", notEmptyValidator)]

/-- The number kind. -/
def numberType : TypeDesc :=
  TypeDesc.mk "number" none none (some (mkValidateType "number")) []

/-- The boolean kind. -/
def booleanType : TypeDesc :=
  TypeDesc.mk "boolean" none none (some (mkValidateType "boolean")) []

/-- The timestamp kind. -/
def dateType : TypeDesc :=
  TypeDesc.mk "date" (some dateSet) (some dateGet) (some (mkValidateType "date")) []

/-- The enumerated-text kind. -/
def enumType : TypeDesc :=
  TypeDesc.mk "enum" none none (some (mkValidateType "enum")) []

/-- The list kind. -/
def listType : TypeDesc :=
  TypeDesc.mk "list" none none (some (mkValidateType "list")) []

/-- The nested-map kind. -/
def mapType : TypeDesc :=
  TypeDesc.mk "map" none none (some (mkValidateType "map")) []

/-- The registry: every built-in kind under its name.  There is no entry
named `null`, the fallback name the engine uses for undeclared
properties. -/
def builtinTypes : List (String × TypeDesc) :=
  [("string", stringType), ("number", numberType), ("boolean", booleanType),
   ("date", dateType), ("enum", enumType), ("list", listType), ("map", mapType)]

/-- Registry lookup (`types[name]`). -/
def typesLookup (n : String) : Option TypeDesc := lookupStr builtinTypes n

/-- Apply a type's `set` transform if it has one. -/
def applyTypeSet (t : TypeDesc) (v : Value) (p : Option PropertySpec) : Value :=
  match t.set with
  | some f => f v p
  | none => v

/-- Apply a type's `get` transform if it has one. -/
def applyTypeGet (t : TypeDesc) (v : Value) (p : Option PropertySpec) : Value :=
  match t.get with
  | some f => f v p
  | none => v

/-- A type's `marshal`: the type-level `set` transform followed by the
codec's encoder. -/
def typeMarshall (t : TypeDesc) (p : PropertySpec) (v : Value) : Except String Wire :=
  encodeV (applyTypeSet t v (some p))

/-- A type's `unmarshal`: the codec's decoder followed by the type-level
`get` transform. -/
def typeUnmarshall (t : TypeDesc) (p : PropertySpec) (w : Wire) : Except String Value :=
  (decodeW w).map (fun u => applyTypeGet t u (some p))

/-! ## The read/write pipelines

Translated from `formatReadData` and `formatWriteData` in
`src/helpers/data.js`.  Both walk the declared properties in order,
mutating the document: a field that exists keeps its slot (even when the
new value is `undefined`), a field that does not exist is appended only
when the final value is defined.  The per-field value
computation is factored into one stage per source statement. -/

/-- The hook stage of the write pipeline: when a field hook is named and
the property declares it, the hook is invoked on the current value
(unconditionally, even for an absent field). -/
def hookStage (hk : Option Hook) (p : PropertySpec) (v : Value) : Value :=
  match hk with
  | some hkk =>
      match hookFn p hkk with
      | some h => h v
      | none => v
  | none => v

/-- The property-level `set` stage, guarded by
`hasProperty || value` truthiness. -/
def setStage (p : PropertySpec) (hasProperty : Bool) (v : Value) : Value :=
  match p.set with
  | some f => if hasProperty || truthy v then f v else v
  | none => v

/-- The type-level `set` stage, guarded the same way and passing the
property for context. -/
def typeSetStage (types : String → Option TypeDesc) (p : PropertySpec)
    (hasProperty : Bool) (v : Value) : Value :=
  match types p.type with
  | some t =>
      match t.set with
      | some f => if hasProperty || truthy v then f v (some p) else v
      | none => v
  | none => v

/-- The type-level `get` stage of the read pipeline. -/
def typeGetStage (types : String → Option TypeDesc) (p : PropertySpec)
    (hasProperty : Bool) (v : Value) : Value :=
  match types p.type with
  | some t =>
      match t.get with
      | some f => if hasProperty || truthy v then f v (some p) else v
      | none => v
  | none => v

/-- The property-level `get` stage of the read pipeline. -/
def getStage (p : PropertySpec) (hasProperty : Bool) (v : Value) : Value :=
  match p.get with
  | some g => if hasProperty || truthy v then g v else v
  | none => v

/-- The value `formatWriteData` computes for one declared property: the
named hook, then the property-level `set`, then the type-level `set`. -/
def writeValue (types : String → Option TypeDesc) (hk : Option Hook) (key : String)
    (p : PropertySpec) (data : List (String × Value)) : Value :=
  let hasProperty := containsKey data key
  let v0 := if hasProperty then (lookupStr data key).getD .undef else .undef
  typeSetStage types p hasProperty (setStage p hasProperty (hookStage hk p v0))

/-- The value `formatReadData` computes for one declared property: the
type-level `get`, then the property-level `get`. -/
def readValue (types : String → Option TypeDesc) (key : String)
    (p : PropertySpec) (data : List (String × Value)) : Value :=
  let hasProperty := containsKey data key
  let v0 := if hasProperty then (lookupStr data key).getD .undef else .undef
  getStage p hasProperty (typeGetStage types p hasProperty v0)

/-- Write back one field: an existing field keeps its slot whatever the
new value is; a missing field is appended only when the value is
defined. -/
def storeField (data : List (String × Value)) (key : String) (v : Value) :
    List (String × Value) :=
  if containsKey data key then setKey data key v
  else if isUndef v then data else data ++ [(key, v)]

/-- Translated from `formatReadData(properties, data)`: for each declared property, apply
the type-level `get` then the property-level `get`, each only when the
field is present or the current value is truthy. -/
def formatReadData (types : String → Option TypeDesc) :
    List (String × PropertySpec) → List (String × Value) → List (String × Value)
  | [], data => data
  | (key, property) :: restProps, data =>
      formatReadData types restProps (storeField data key (readValue types key property data))

/-- Translated from `formatWriteData(properties, data, opts)`: for each declared
property, invoke the named lifecycle hook (unconditionally, on the current
value or `undefined`), then the property-level `set`, then the type-level
`set`, the latter two only when the field is present or the current value
is truthy. -/
def formatWriteData (types : String → Option TypeDesc) (fieldHook : Option Hook) :
    List (String × PropertySpec) → List (String × Value) → List (String × Value)
  | [], data => data
  | (key, property) :: restProps, data =>
      formatWriteData types fieldHook restProps
        (storeField data key (writeValue types fieldHook key property data))

/-! ## Key marshalling (`marshallKey`) -/

/-- Translated from `marshallKey(properties, input)`: for each field of the input, apply
the property-level `set` then the type-level `set`, require the result to
be a string or a number, and emit the `S`/`N` wire tag with the value
interpolated as text. -/
def marshallKey (types : String → Option TypeDesc)
    (properties : List (String × PropertySpec)) :
    List (String × Value) → Except String (List (String × Wire))
  | [] => .ok []
  | (key, value) :: rest =>
      let property := lookupStr properties key
      let type := types (match property with | some p => p.type | none => "null")
      let v1 := match property with
        | some p =>
            match p.set with
            | some f => f value
            | none => value
        | none => value
      let v2 := match type with
        | some t =>
            match t.set with
            | some f => f v1 property
            | none => v1
        | none => v1
      match v2 with
      | .str s => (marshallKey types properties rest).map (fun out => (key, .S s) :: out)
      | .num n =>
          (marshallKey types properties rest).map (fun out => (key, .N (intDecStr n)) :: out)
      | _ => .error ("Expected key value at " ++ key ++ " to be a string or number")

/-! ## The validation engine (`validateData`) -/

/-- Run the rules of a property's `validate` map in declaration order: a
function rule is called with the field's value; a non-function rule selects
the same-named built-in validator on the type, which is called with
`(value, ruleParameter, propertySpec)` and must exist. -/
def runRules
    (tvs : List (String × (Value → Value → Option PropertySpec → Except String Unit)))
    (property : Option PropertySpec) (value : Value) :
    List (String × Rule) → Except String Unit
  | [] => .ok ()
  | (_, .func f) :: rest =>
      match f value with
      | .error e => .error e
      | .ok _ => runRules tvs property value rest
  | (vkey, .param prm) :: rest =>
      match lookupStr tvs vkey with
      | some tv =>
          match tv value prm property with
          | .error e => .error e
          | .ok _ => runRules tvs property value rest
      | none => .error ("Expected validator " ++ vkey ++ " to be a function")

/-- Validate one present field: the type's structural (`type`) validator
runs first; if it passes, the property's rules run in order. -/
def validateField (types : String → Option TypeDesc)
    (properties : List (String × PropertySpec)) (key : String) (value : Value) :
    Except String Unit :=
  let property := lookupStr properties key
  let type := types (match property with | some p => p.type | none => "null")
  let propertyValidators := match property with | some p => p.validate | none => []
  let tvOpt := match type with | some t => t.validateType | none => none
  let tvs := match type with | some t => t.validators | none => []
  match tvOpt with
  | some f =>
      match f value property with
      | .error e => .error e
      | .ok _ => runRules tvs property value propertyValidators
  | none => runRules tvs property value propertyValidators

/-- Translated from `validateData(properties, data, prefix)`: walk the document's present
fields in order; the first failure has its message rewritten to
`Error validating <prefix><field>: <original>` and halts the engine. -/
def validateData (types : String → Option TypeDesc)
    (properties : List (String × PropertySpec)) :
    List (String × Value) → String → Except String Unit
  | [], _ => .ok ()
  | (key, value) :: rest, pre =>
      match validateField types properties key value with
      | .error e => .error ("Error validating " ++ pre ++ key ++ ": " ++ e)
      | .ok _ => validateData types properties rest pre

/-! ## The update-document compile phase

The sequencing below is translated from the `updateDocument` method:
`assertRequiredUpdateProps`, then `validateData` over the partial update,
then `formatUpdateData`, then `stringifyUpdateStatement`.  The three
helpers it calls live in modules that are not among the sources at hand,
so they are modelled from the spec (§4.6). -/

/-- The model's primary-key description. -/
structure KeySchema : Type where
  hash : String
  range : Option String

/-- Errors of the update compile phase. -/
inductive CompileErr : Type where
  | immutableKey (field : String)
  | requiredField (field : String)
  | validation (msg : String)
deriving DecidableEq

/-- Required-field scan of `assertRequiredUpdateProps`: a required property
that the update explicitly nulls out (or sets `undefined`) is rejected. -/
def assertRequiredProps :
    List (String × PropertySpec) → List (String × Value) → Except CompileErr Unit
  | [], _ => .ok ()
  | (key, p) :: rest, update =>
      if p.required then
        match lookupStr update key with
        | some .null => .error (.requiredField key)
        | some .undef => .error (.requiredField key)
        | _ => assertRequiredProps rest update
      else assertRequiredProps rest update

/-- Modelled from the spec: `assertRequiredUpdateProps` — an update naming
the hash or range key field is rejected with `ImmutableKeyError`
(§4.6: updates to key fields are rejected), then any required field being
explicitly nulled out is rejected with `RequiredFieldError`. -/
def assertRequiredUpdateProps (ks : KeySchema)
    (properties : List (String × PropertySpec)) (update : List (String × Value)) :
    Except CompileErr Unit :=
  if containsKey update ks.hash then .error (.immutableKey ks.hash)
  else
    match ks.range with
    | some r =>
        if containsKey update r then .error (.immutableKey r)
        else assertRequiredProps properties update
    | none => assertRequiredProps properties update

/-- Modelled from the spec: `formatUpdateData` — the write-pipeline subset
restricted to the update lifecycle hook and the `set` transforms, i.e.
`formatWriteData` with the `onUpdate` field hook. -/
def formatUpdateData (types : String → Option TypeDesc)
    (properties : List (String × PropertySpec)) (update : List (String × Value)) :
    List (String × Value) :=
  formatWriteData types (some .onUpdate) properties update

/-- Is this value the explicit-null sentinel? -/
def isNullV : Value → Bool
  | .null => true
  | _ => false

/-- The structured output of the update expression compiler: the fields
with SET clauses, the fields with REMOVE clauses, the rendered expression
and the placeholder maps. -/
structure UpdateExpression : Type where
  sets : List String
  removes : List String
  expression : String
  names : List (String × String)
  values : List (String × Value)

/-- Modelled from the spec: `stringifyUpdateStatement` — a REMOVE clause
for every field whose value is the explicit-null/undefined sentinel, a SET
clause with `#field = :field` placeholders for every other field, with the
`names`/`values` placeholder maps. -/
def stringifyUpdateStatement (update : List (String × Value)) : UpdateExpression :=
  let keep := update.filter (fun kv => !(isUndef kv.2 || isNullV kv.2))
  let drop := update.filter (fun kv => isUndef kv.2 || isNullV kv.2)
  let sets := keep.map (fun kv => kv.1)
  let removes := drop.map (fun kv => kv.1)
  let setPart := if sets.isEmpty then ""
    else "SET " ++ String.intercalate ", " (sets.map (fun k => "#" ++ k ++ " = :" ++ k))
  let removePart := if removes.isEmpty then ""
    else (if sets.isEmpty then "" else " ") ++ "REMOVE "
      ++ String.intercalate ", " (removes.map (fun k => "#" ++ k))
  UpdateExpression.mk sets removes (setPart ++ removePart)
    ((sets ++ removes).map (fun k => ("#" ++ k, k)))
    (keep.map (fun kv => (":" ++ kv.1, kv.2)))

/-- The compile phase of `updateDocument`, in the source's order: the
required-update assertion, then the validation engine over the partial
update, then the write-pipeline subset, then the expression compiler. -/
def compileUpdate (types : String → Option TypeDesc) (ks : KeySchema)
    (properties : List (String × PropertySpec)) (update : List (String × Value)) :
    Except CompileErr UpdateExpression :=
  match assertRequiredUpdateProps ks properties update with
  | .error e => .error e
  | .ok _ =>
      match validateData types properties update "" with
      | .error e => .error (.validation e)
      | .ok _ => .ok (stringifyUpdateStatement (formatUpdateData types properties update))

/-- The compile phase as §4.6 of the spec words it (the claim under
scrutiny): required assertion first, then the write-pipeline subset, then
the validation engine. -/
def compileUpdateSpecOrder (types : String → Option TypeDesc) (ks : KeySchema)
    (properties : List (String × PropertySpec)) (update : List (String × Value)) :
    Except CompileErr UpdateExpression :=
  match assertRequiredUpdateProps ks properties update with
  | .error e => .error e
  | .ok _ =>
      match validateData types properties (formatUpdateData types properties update) "" with
      | .error e => .error (.validation e)
      | .ok _ => .ok (stringifyUpdateStatement (formatUpdateData types properties update))

/-! ## Concrete schemas used by witnesses and counterexamples -/

/-- A hook that turns any value into the defined string `"x"`. -/
def exHookFn : Value → Value := fun _ => .str "x"

/-- A text property whose `onUpdate` hook produces `"x"`. -/
def exHookProp : PropertySpec :=
  PropertySpec.mk "string" false none none none none none (some exHookFn) none []

/-- A text property whose `onUpdate` hook produces `"x"` but whose `set`
transform maps every value back to `undefined`. -/
def exC9Prop : PropertySpec :=
  PropertySpec.mk "string" false none none (some (fun _ => .undef)) none none
    (some exHookFn) none []

/-- A plain numeric property. -/
def exNumProp : PropertySpec := mkProp "number"

/-- A text property with a non-function rule naming no built-in. -/
def exUnknownProp : PropertySpec :=
  PropertySpec.mk "string" false none none none none none none none
    [("isWeird", Rule.param (.bool true))]

/-- A key schema with hash key `id` and no range key. -/
def exKS : KeySchema := KeySchema.mk "id" none

/-- A required text property (usable as a key) whose `onUpdate` hook
injects the string `"inj"`. -/
def exC4KeyProp : PropertySpec :=
  PropertySpec.mk "string" true none none none none none (some (fun _ => .str "inj")) none []

/-- A numeric property whose `set` transform coerces any value to `1`. -/
def exC6SetProp : PropertySpec :=
  PropertySpec.mk "number" false none none (some (fun _ => .num 1)) none none none none []

/-- Success of an `Except`, as a boolean. -/
def isOkE {ε α : Type} : Except ε α → Bool
  | .ok _ => true
  | .error _ => false

/-- Property-level `set` transform of `marshallKey`'s per-field chain. -/
def applyPropSetK (properties : List (String × PropertySpec)) (k : String) (v : Value) :
    Value :=
  match lookupStr properties k with
  | some p =>
      match p.set with
      | some f => f v
      | none => v
  | none => v

/-- Type-level `set` transform of `marshallKey`'s per-field chain. -/
def applyTypeSetK (types : String → Option TypeDesc)
    (properties : List (String × PropertySpec)) (k : String) (v : Value) : Value :=
  match types (match lookupStr properties k with | some p => p.type | none => "null") with
  | some t =>
      match t.set with
      | some f => f v (lookupStr properties k)
      | none => v
  | none => v

/-! ## Claims -/

/-! ## Theorems -/

theorem digitVal_digitChar {n : Nat} (h : n < 10) : digitVal (digitChar n) = n := by
  interval_cases n <;> rfl

theorem isDigitChar_digitChar {n : Nat} (h : n < 10) : isDigitChar (digitChar n) = true := by
  interval_cases n <;> rfl

theorem natDecAux_ne_nil {fuel n : Nat} (h : n < fuel) : natDecAux fuel n ≠ [] := by
  cases fuel with
  | zero => omega
  | succ f =>
      unfold natDecAux
      split
      · simp
      · simp

theorem natDecAux_all_digits {fuel n : Nat} (h : n < fuel) :
    (natDecAux fuel n).all isDigitChar = true := by
  induction fuel generalizing n with
  | zero => omega
  | succ f ih =>
      unfold natDecAux
      split
      · next h10 => simp [isDigitChar_digitChar h10]
      · next h10 =>
          have hfn : n / 10 < f := by omega
          have hd : n % 10 < 10 := Nat.mod_lt _ (by omega)
          simp [List.all_append, ih hfn, isDigitChar_digitChar hd]

theorem foldl_digits_append (cs : List Char) (c : Char) (a : Nat) :
    (cs ++ [c]).foldl (fun a c => a * 10 + digitVal c) a
      = (cs.foldl (fun a c => a * 10 + digitVal c) a) * 10 + digitVal c := by
  simp [List.foldl_append]

theorem parseNat_natDecAux {fuel n : Nat} (h : n < fuel) :
    parseNatChars (natDecAux fuel n) = some n := by
  induction fuel generalizing n with
  | zero => omega
  | succ f ih =>
      unfold natDecAux
      split
      · next h10 =>
          simp [parseNatChars, isDigitChar_digitChar h10, digitVal_digitChar h10]
      · next h10 =>
          have h10' : ¬ n < 10 := h10
          have hfn : n / 10 < f := by omega
          have hd : n % 10 < 10 := Nat.mod_lt _ (by omega)
          have hne := natDecAux_ne_nil hfn
          have hall := natDecAux_all_digits hfn
          have hrec := ih hfn
          obtain ⟨c0, rest, hcs⟩ : ∃ c0 rest, natDecAux f (n / 10) = c0 :: rest := by
            cases hx : natDecAux f (n / 10) with
            | nil => exact absurd hx hne
            | cons a l => exact ⟨a, l, rfl⟩
          rw [hcs] at hrec hall ⊢
          simp only [parseNatChars, List.isEmpty_cons, if_false, hall, if_true,
            Bool.false_eq_true] at hrec
          have hfold : (c0 :: rest).foldl (fun a c => a * 10 + digitVal c) 0 = n / 10 :=
            Option.some.inj hrec
          have hshape : (c0 :: rest) ++ [digitChar (n % 10)]
              = c0 :: (rest ++ [digitChar (n % 10)]) := by simp
          rw [hshape]
          have hall' : (c0 :: (rest ++ [digitChar (n % 10)])).all isDigitChar = true := by
            rw [← hshape, List.all_append, hall]
            simp [isDigitChar_digitChar hd]
          simp only [parseNatChars, List.isEmpty_cons, if_false, hall', if_true,
            Bool.false_eq_true]
          rw [← hshape, foldl_digits_append, hfold, digitVal_digitChar hd]
          congr 1
          omega

/-- Parsing the decimal digit string of `n` returns `n`. -/
theorem parseNat_natDecChars (n : Nat) : parseNatChars (natDecChars n) = some n :=
  parseNat_natDecAux (Nat.lt_succ_self n)

theorem natDecChars_head_digit (n : Nat) :
    ∀ c ∈ natDecChars n, c ≠ '-' := by
  intro c hc hcm
  have hall := natDecAux_all_digits (Nat.lt_succ_self n)
  rw [List.all_eq_true] at hall
  have hdig : isDigitChar c = true := hall c hc
  rw [hcm] at hdig
  exact absurd hdig (by decide)

/-- Parsing the decimal string of an integer returns that integer. -/
theorem parseInt_intDecStr (n : Int) : parseIntChars (intDecStr n).data = some n := by
  by_cases h : n < 0
  · simp only [intDecStr, h, if_true]
    show parseIntChars ('-' :: natDecChars (-n).toNat) = some n
    have hfst : parseIntChars ('-' :: natDecChars (-n).toNat)
        = (parseNatChars (natDecChars (-n).toNat)).map (fun m => -(Int.ofNat m)) := rfl
    rw [hfst, parseNat_natDecChars]
    simp only [Option.map_some']
    congr 1
    simp only [Int.ofNat_eq_natCast]
    omega
  · simp only [intDecStr, h, if_false]
    show parseIntChars (natDecChars n.toNat) = some n
    have hne : natDecChars n.toNat ≠ [] := natDecAux_ne_nil (Nat.lt_succ_self _)
    have hp := parseNat_natDecChars n.toNat
    rcases hcs : natDecChars n.toNat with _ | ⟨c, rest⟩
    · exact absurd hcs hne
    · have hcne : c ≠ '-' := by
        apply natDecChars_head_digit n.toNat
        rw [hcs]; exact List.mem_cons_self _ _
      rw [hcs] at hp
      have hred : parseIntChars (c :: rest)
          = (parseNatChars (c :: rest)).map Int.ofNat := by
        unfold parseIntChars
        split
        · next heq => exact absurd (List.cons.inj heq).1 hcne
        · rfl
      rw [hred, hp]
      simp only [Option.map_some']
      congr 1
      simp only [Int.ofNat_eq_natCast]
      omega

theorem daysInYear_pos (y : Nat) : 365 ≤ daysInYear y := by
  unfold daysInYear; split <;> omega

theorem monthLengths_sum (y : Nat) : (monthLengths y).sum = daysInYear y := by
  unfold monthLengths daysInYear; cases isLeap y <;> simp

theorem monthLengths_le (y : Nat) : ∀ x ∈ monthLengths y, x ≤ 31 := by
  unfold monthLengths; cases isLeap y <;> simp

theorem monthLengths_length (y : Nat) : (monthLengths y).length = 12 := rfl

theorem yearsSum_add (a : Nat) : ∀ y b, yearsSum y (a + b) = yearsSum y a + yearsSum (y + a) b := by
  induction a with
  | zero => intro y b; simp [yearsSum]
  | succ a ih =>
      intro y b
      have h1 : a + 1 + b = (a + b) + 1 := by omega
      rw [h1]
      show daysInYear y + yearsSum (y + 1) (a + b) = yearsSum y (a + 1) + yearsSum (y + (a + 1)) b
      rw [ih (y + 1) b]
      show daysInYear y + (yearsSum (y + 1) a + yearsSum (y + 1 + a) b)
        = (daysInYear y + yearsSum (y + 1) a) + yearsSum (y + (a + 1)) b
      have h2 : y + 1 + a = y + (a + 1) := by omega
      rw [h2]
      omega

theorem splitYearsAux_spec : ∀ fuel y d, d < fuel → ∀ Y doy, splitYearsAux fuel y d = (Y, doy) →
    ∃ k, Y = y + k ∧ yearsSum y k + doy = d ∧ doy < daysInYear Y := by
  intro fuel
  induction fuel with
  | zero => intro y d h; omega
  | succ f ih =>
      intro y d h Y doy heq
      rw [splitYearsAux] at heq
      split at heq
      · next hlt =>
          obtain ⟨h1, h2⟩ := Prod.mk.inj heq
          subst h1; subst h2
          exact ⟨0, by omega, by simp [yearsSum], hlt⟩
      · next hge =>
          have hpos := daysInYear_pos y
          have hle : daysInYear y ≤ d := by omega
          obtain ⟨k, hY, hsum, hlt⟩ := ih (y + 1) (d - daysInYear y) (by omega) Y doy heq
          refine ⟨k + 1, by omega, ?_, hlt⟩
          show daysInYear y + yearsSum (y + 1) k + doy = d
          omega

theorem splitYears_spec {d Y doy : Nat} (h : splitYears 1970 d = (Y, doy)) :
    ∃ k, Y = 1970 + k ∧ yearsSum 1970 k + doy = d ∧ doy < daysInYear Y :=
  splitYearsAux_spec (d + 1) 1970 d (Nat.lt_succ_self d) Y doy h

theorem splitMonths_spec : ∀ ls d,
    (ls.take (splitMonths d ls).1).sum + (splitMonths d ls).2 = d := by
  intro ls
  induction ls with
  | nil => intro d; simp [splitMonths]
  | cons len rest ih =>
      intro d
      rw [splitMonths]
      split
      · simp
      · next hge =>
          simp only [List.take_succ_cons, List.sum_cons]
          have := ih (d - len)
          omega

theorem splitMonths_bounds : ∀ ls d, d < ls.sum →
    (splitMonths d ls).1 < ls.length ∧ (splitMonths d ls).2 < ls.getD (splitMonths d ls).1 0 := by
  intro ls
  induction ls with
  | nil => intro d h; simp [List.sum_nil] at h
  | cons len rest ih =>
      intro d h
      rw [splitMonths]
      split
      · next hlt => simpa using hlt
      · next hge =>
          simp only [List.sum_cons] at h
          have hrec := ih (d - len) (by omega)
          simp only [List.length_cons, List.getD_cons_succ]
          exact ⟨by omega, hrec.2⟩

theorem isDigitChar_mod (a : Nat) : isDigitChar (digitChar (a % 10)) = true :=
  isDigitChar_digitChar (Nat.mod_lt _ (by omega))

theorem digitVal_mod (a : Nat) : digitVal (digitChar (a % 10)) = a % 10 :=
  digitVal_digitChar (Nat.mod_lt _ (by omega))

set_option maxRecDepth 2000 in
/-- One-step reduction of `parseIsoChars` on a well-shaped character list. -/
theorem parseIsoChars_cons (a b c d e f g h i j k l m n o p q : Char) :
    parseIsoChars [a, b, c, d, '-', e, f, '-', g, h, 'T', i, j, ':', k, l, ':',
      m, n, '.', o, p, q, 'Z'] =
      (if [a, b, c, d, e, f, g, h, i, j, k, l, m, n, o, p, q].all isDigitChar then
        if 1970 ≤ val4 a b c d ∧ 1 ≤ val2 e f ∧ val2 e f ≤ 12 ∧ 1 ≤ val2 g h then
          some ((yearsSum 1970 (val4 a b c d - 1970)
              + ((monthLengths (val4 a b c d)).take (val2 e f - 1)).sum
              + (val2 g h - 1)) * 86400000
            + val2 i j * 3600000 + val2 k l * 60000 + val2 m n * 1000
            + val3 o p q)
        else none
      else none) := rfl

set_option maxRecDepth 2000 in
/-- Decoding the fixed-width ISO-8601 representation of an epoch inside the
modelled window returns that epoch. -/
theorem parseIso_isoChars {t : Nat} (h : t < isoLimit) :
    parseIsoChars (isoChars t) = some t := by
  have hlim : t < 86400000 * yearsSum 1970 8030 := h
  have hdayslt : t / 86400000 < yearsSum 1970 8030 := by omega
  rcases hyd : splitYears 1970 (t / 86400000) with ⟨Y, doy⟩
  obtain ⟨k, hYk, hksum, hdoy⟩ := splitYears_spec hyd
  have hk : k < 8030 := by
    by_contra hk
    push_neg at hk
    have := yearsSum_add 8030 1970 (k - 8030)
    have h8030 : 8030 + (k - 8030) = k := by omega
    rw [h8030] at this
    omega
  have hY10000 : Y < 10000 := by
    have h366 : daysInYear Y ≥ 365 := daysInYear_pos Y
    omega
  rcases hmd : splitMonths doy (monthLengths Y) with ⟨m0, dd⟩
  have hms := splitMonths_spec (monthLengths Y) doy
  have hmb := splitMonths_bounds (monthLengths Y) doy
      (by rw [monthLengths_sum]; exact hdoy)
  rw [hmd] at hms hmb
  dsimp only at hms hmb
  have hm12 : m0 < 12 := by
    have := hmb.1
    rwa [monthLengths_length] at this
  have hdd31 : dd < 31 + 1 := by
    have h2 := hmb.2
    have h3 : (monthLengths Y).getD m0 0 ≤ 31 := by
      rcases List.getD_eq_getElem?_getD (monthLengths Y) m0 0 with hg
      rw [hg]
      rcases hx : (monthLengths Y)[m0]? with _ | x
      · simp
      · have hxm : x ∈ monthLengths Y := by
          have := List.getElem?_mem hx
          exact this
        simpa using monthLengths_le Y x hxm
    omega
  have hh24 : t % 86400000 / 3600000 < 24 := by omega
  -- expose the literal character list
  have hiso : isoChars t = pad4 Y ++ '-' :: (pad2 (m0 + 1) ++ '-' :: (pad2 (dd + 1) ++ 'T' ::
      (pad2 (t % 86400000 / 3600000) ++ ':' :: (pad2 (t % 86400000 / 60000 % 60) ++ ':' ::
        (pad2 (t % 86400000 / 1000 % 60) ++ '.' ::
          (pad3 (t % 86400000 % 1000) ++ ['Z'])))))) := by
    simp only [isoChars]
    rw [hyd]
    dsimp only
    rw [hmd]
  rw [hiso]
  simp only [pad4, pad3, pad2, List.cons_append, List.nil_append]
  rw [parseIsoChars_cons]
  simp only [List.all_cons, List.all_nil, isDigitChar_mod, Bool.and_true, Bool.true_and,
    if_true]
  simp only [val4, val2, val3, digitVal_mod]
  have hY4 : ((Y / 1000 % 10 * 10 + Y / 100 % 10) * 10 + Y / 10 % 10) * 10 + Y % 10 = Y := by
    omega
  have hMM : (m0 + 1) / 10 % 10 * 10 + (m0 + 1) % 10 = m0 + 1 := by omega
  have hDD : (dd + 1) / 10 % 10 * 10 + (dd + 1) % 10 = dd + 1 := by omega
  have hH : (t % 86400000) / 3600000 / 10 % 10 * 10 + (t % 86400000) / 3600000 % 10 = (t % 86400000) / 3600000 := by omega
  have hI : (t % 86400000) / 60000 % 60 / 10 % 10 * 10 + (t % 86400000) / 60000 % 60 % 10 = (t % 86400000) / 60000 % 60 := by
    omega
  have hS : (t % 86400000) / 1000 % 60 / 10 % 10 * 10 + (t % 86400000) / 1000 % 60 % 10 = (t % 86400000) / 1000 % 60 := by
    omega
  have hX : ((t % 86400000) % 1000 / 100 % 10 * 10 + (t % 86400000) % 1000 / 10 % 10) * 10 + (t % 86400000) % 1000 % 10
      = (t % 86400000) % 1000 := by omega
  rw [hY4, hMM, hDD, hH, hI, hS, hX]
  rw [if_pos (by refine ⟨by omega, by omega, by omega, by omega⟩)]
  have hYk' : Y - 1970 = k := by omega
  have htake : m0 + 1 - 1 = m0 := by omega
  rw [hYk', htake]
  rw [Option.some_inj]
  have hdd1 : dd + 1 - 1 = dd := by omega
  rw [hdd1]
  omega

mutual

/-- Decoding the encoding of a codec-encodable value returns the value. -/
theorem decode_encodeV : ∀ v : Value, plain v = true → (encodeV v).bind decodeW = .ok v
  | .undef, h => by simp [plain] at h
  | .null, _ => by simp [encodeV, decodeW, Except.bind]
  | .str s, _ => by simp [encodeV, decodeW, Except.bind]
  | .num n, _ => by
      simp [encodeV, decodeW, Except.bind, parseInt_intDecStr]
  | .bool b, _ => by simp [encodeV, decodeW, Except.bind]
  | .date t, h => by simp [plain] at h
  | .list xs, h => by
      have hxs : plainList xs = true := by simpa [plain] using h
      have hrec := decode_encodeList xs hxs
      rcases henc : encodeList xs with e | ws
      · rw [henc] at hrec; simp [Except.bind] at hrec
      · rw [henc] at hrec
        simp only [Except.bind] at hrec
        simp [encodeV, henc, Except.map, Except.bind, decodeW, hrec]
  | .map kvs, h => by
      have hkvs : plainMap kvs = true := by simpa [plain] using h
      have hrec := decode_encodeMap kvs hkvs
      rcases henc : encodeMap kvs with e | ws
      · rw [henc] at hrec; simp [Except.bind] at hrec
      · rw [henc] at hrec
        simp only [Except.bind] at hrec
        simp [encodeV, henc, Except.map, Except.bind, decodeW, hrec]

/-- Decoding the encodings of a list of codec-encodable values returns the
list. -/
theorem decode_encodeList : ∀ xs : List Value, plainList xs = true →
    (encodeList xs).bind decodeList = .ok xs
  | [], _ => by simp [encodeList, decodeList, Except.bind]
  | v :: rest, h => by
      have hv : plain v = true := by
        have := h; simp [plainList, Bool.and_eq_true] at this; exact this.1
      have hrest : plainList rest = true := by
        have := h; simp [plainList, Bool.and_eq_true] at this; exact this.2
      have hv' := decode_encodeV v hv
      have hrest' := decode_encodeList rest hrest
      rcases henc : encodeV v with e | w
      · rw [henc] at hv'; simp [Except.bind] at hv'
      · rw [henc] at hv'
        simp only [Except.bind] at hv'
        rcases hencr : encodeList rest with e | ws
        · rw [hencr] at hrest'; simp [Except.bind] at hrest'
        · rw [hencr] at hrest'
          simp only [Except.bind] at hrest'
          simp [encodeList, henc, hencr, Except.map, Except.bind, decodeList, hv', hrest']

/-- Decoding the encodings of an object of codec-encodable values returns
the object. -/
theorem decode_encodeMap : ∀ kvs : List (String × Value), plainMap kvs = true →
    (encodeMap kvs).bind decodeMap = .ok kvs
  | [], _ => by simp [encodeMap, decodeMap, Except.bind]
  | (k, v) :: rest, h => by
      have hv : plain v = true := by
        have := h; simp [plainMap, Bool.and_eq_true] at this; exact this.1
      have hrest : plainMap rest = true := by
        have := h; simp [plainMap, Bool.and_eq_true] at this; exact this.2
      have hv' := decode_encodeV v hv
      have hrest' := decode_encodeMap rest hrest
      rcases henc : encodeV v with e | w
      · rw [henc] at hv'; simp [Except.bind] at hv'
      · rw [henc] at hv'
        simp only [Except.bind] at hv'
        rcases hencr : encodeMap rest with e | ws
        · rw [hencr] at hrest'; simp [Except.bind] at hrest'
        · rw [hencr] at hrest'
          simp only [Except.bind] at hrest'
          simp [encodeMap, henc, hencr, Except.map, Except.bind, decodeMap, hv', hrest']

end

/-- Parsing the ISO-8601 string of an epoch inside the modelled window
returns that epoch. -/
theorem parseIso_isoStr {u : Nat} (h : u < isoLimit) : parseIso (isoStr u) = some u := by
  unfold parseIso isoStr
  exact parseIso_isoChars h

/-- Marshal-then-unmarshal is the identity for a transform-free type on any
codec-encodable value. -/
theorem roundtrip_of_plain (t : TypeDesc) (hset : t.set = none) (hget : t.get = none)
    (p : PropertySpec) (v : Value) (h : plain v = true) :
    (typeMarshall t p v).bind (typeUnmarshall t p) = .ok v := by
  have hde := decode_encodeV v h
  unfold typeMarshall typeUnmarshall applyTypeSet applyTypeGet
  rw [hset, hget]
  rcases henc : encodeV v with e | w
  · rw [henc] at hde; simp [Except.bind] at hde
  · rw [henc] at hde
    simp only [Except.bind] at hde
    simp [Except.bind, hde, Except.map]

/-- C1: for every built-in type in the registry and every value `v`
accepted by that type's own validators, decoding the encoding of `v`
returns `v` — each type's marshal (type-level `set` transform followed by
the codec encoder) is the exact inverse of its unmarshal (codec decoder
followed by the type-level `get` transform). -/
theorem C1_builtin_types_roundtrip :
    ∀ name td, (name, td) ∈ builtinTypes → ∀ (p : PropertySpec) (v : Value),
      typeAccepts name (some p) v = true →
      (typeMarshall td p v).bind (typeUnmarshall td p) = .ok v := by
  intro name td hmem p v hacc
  simp only [builtinTypes, List.mem_cons, List.not_mem_nil, or_false,
    Prod.mk.injEq] at hmem
  rcases hmem with ⟨h1, h2⟩ | ⟨h1, h2⟩ | ⟨h1, h2⟩ | ⟨h1, h2⟩ | ⟨h1, h2⟩ | ⟨h1, h2⟩ | ⟨h1, h2⟩ <;>
    subst h1 <;> subst h2
  · -- string
    cases v <;> simp [typeAccepts] at hacc <;>
      exact roundtrip_of_plain stringType rfl rfl p _ rfl
  · -- number
    cases v <;> simp [typeAccepts] at hacc <;>
      exact roundtrip_of_plain numberType rfl rfl p _ rfl
  · -- boolean
    cases v <;> simp [typeAccepts] at hacc <;>
      exact roundtrip_of_plain booleanType rfl rfl p _ rfl
  · -- date
    cases v <;> simp [typeAccepts] at hacc
    next t =>
      obtain ⟨h0, hlt⟩ := hacc
      have h0' : 0 ≤ t := h0
      have hlt' : t < dateMax := hlt
      have htn : t.toNat < isoLimit := by
        have hl2 : t < Int.ofNat isoLimit := hlt'
        rw [Int.ofNat_eq_natCast] at hl2
        omega
      rcases hf : p.format with _ | f
      · simp [typeMarshall, typeUnmarshall, applyTypeSet, applyTypeGet, dateType,
          dateSet, dateGet, hf, encodeV, decodeW, Except.bind, Except.map,
          parseIso_isoStr htn, Int.toNat_of_nonneg h0']
      · cases f
        · simp [typeMarshall, typeUnmarshall, applyTypeSet, applyTypeGet, dateType,
            dateSet, dateGet, hf, encodeV, decodeW, Except.bind, Except.map,
            parseInt_intDecStr]
        · simp [typeMarshall, typeUnmarshall, applyTypeSet, applyTypeGet, dateType,
            dateSet, dateGet, hf, encodeV, decodeW, Except.bind, Except.map,
            parseIso_isoStr htn, Int.toNat_of_nonneg h0']
  · -- enum
    cases v <;> simp [typeAccepts] at hacc <;>
      exact roundtrip_of_plain enumType rfl rfl p _ rfl
  · -- list
    cases v <;> simp [typeAccepts] at hacc
    next xs =>
      exact roundtrip_of_plain listType rfl rfl p _ (by simpa [plain] using hacc)
  · -- map
    cases v <;> simp [typeAccepts] at hacc
    next kvs =>
      exact roundtrip_of_plain mapType rfl rfl p _ (by simpa [plain] using hacc)

/-- Witness for C1: the text kind is in the registry, accepts the string
`"a"`, and the round trip at that value returns the value. -/
theorem C1_builtin_types_roundtrip_witness :
    (typeMarshall stringType (mkProp "string") (.str "a")).bind
      (typeUnmarshall stringType (mkProp "string")) = .ok (.str "a") :=
  C1_builtin_types_roundtrip "string" stringType (by simp [builtinTypes])
    (mkProp "string") (.str "a") rfl

theorem containsKey_of_mem {α : Type} {l : List (String × α)} {k : String} {v : α}
    (h : (k, v) ∈ l) : containsKey l k = true := by
  induction l with
  | nil => simp at h
  | cons kv rest ih =>
      rcases kv with ⟨k0, v0⟩
      rcases List.mem_cons.mp h with heq | hmem
      · obtain ⟨hk, hv⟩ := Prod.mk.inj heq
        subst hk
        simp [containsKey, lookupStr]
      · by_cases hk0 : k0 = k
        · simp [containsKey, lookupStr, hk0]
        · have := ih hmem
          simpa [containsKey, lookupStr, hk0] using this

theorem containsKey_setKey {α : Type} (l : List (String × α)) (k k' : String) (v : α) :
    containsKey (setKey l k v) k' = (containsKey l k' || decide (k = k')) := by
  induction l with
  | nil =>
      by_cases h : k = k' <;> simp [setKey, containsKey, lookupStr, h]
  | cons kv rest ih =>
      rcases kv with ⟨k0, v0⟩
      by_cases h0 : k0 = k
      · subst h0
        by_cases h1 : k0 = k'
        · subst h1
          simp [setKey, containsKey, lookupStr]
        · simp [setKey, containsKey, lookupStr, h1]
      · by_cases h1 : k0 = k'
        · subst h1
          have hne : ¬ k = k0 := fun hx => h0 hx.symm
          simp [setKey, containsKey, lookupStr, h0, hne]
        · have hs : setKey ((k0, v0) :: rest) k v = (k0, v0) :: setKey rest k v := by
            simp [setKey, h0]
          rw [hs]
          have h2 : containsKey ((k0, v0) :: setKey rest k v) k'
              = containsKey (setKey rest k v) k' := by
            simp [containsKey, lookupStr, h1]
          have h3 : containsKey ((k0, v0) :: rest) k' = containsKey rest k' := by
            simp [containsKey, lookupStr, h1]
          rw [h2, h3, ih]

theorem containsKey_append {α : Type} (l1 l2 : List (String × α)) (k : String) :
    containsKey (l1 ++ l2) k = (containsKey l1 k || containsKey l2 k) := by
  induction l1 with
  | nil => simp [containsKey, lookupStr]
  | cons kv rest ih =>
      rcases kv with ⟨k0, v0⟩
      by_cases h : k0 = k
      · simp [containsKey, lookupStr, h]
      · simpa [containsKey, lookupStr, h] using ih

/-- Both `set` stages leave `undefined` unchanged when the field is
absent (the `hasProperty || value` guard is false on `undefined`). -/
theorem setStage_undef (p : PropertySpec) : setStage p false .undef = .undef := by
  unfold setStage
  rcases hs : p.set with _ | f <;> simp [hs, truthy]

theorem typeSetStage_undef (types : String → Option TypeDesc) (p : PropertySpec) :
    typeSetStage types p false .undef = .undef := by
  unfold typeSetStage
  rcases ht : types p.type with _ | t
  · simp [ht]
  · rcases hs : t.set with _ | f <;> simp [ht, hs, truthy]

theorem typeGetStage_undef (types : String → Option TypeDesc) (p : PropertySpec) :
    typeGetStage types p false .undef = .undef := by
  unfold typeGetStage
  rcases ht : types p.type with _ | t
  · simp [ht]
  · rcases hs : t.get with _ | f <;> simp [ht, hs, truthy]

theorem getStage_undef (p : PropertySpec) : getStage p false .undef = .undef := by
  unfold getStage
  rcases hs : p.get with _ | f <;> simp [hs, truthy]

/-- For an absent field the write pipeline's value computation starts from
`undefined` and is independent of the document. -/
theorem writeValue_absent (types : String → Option TypeDesc) (hk : Option Hook)
    (key : String) (p : PropertySpec) (data : List (String × Value))
    (habs : containsKey data key = false) :
    writeValue types hk key p data
      = typeSetStage types p false (setStage p false (hookStage hk p .undef)) := by
  unfold writeValue
  rw [habs]
  simp

/-- An absent field whose property declares no effective hook keeps the
`undefined` value through the whole write chain. -/
theorem writeValue_absent_undef (types : String → Option TypeDesc) (hk : Option Hook)
    (key : String) (p : PropertySpec) (data : List (String × Value))
    (habs : containsKey data key = false)
    (hhook : hookStage hk p .undef = .undef) :
    writeValue types hk key p data = .undef := by
  rw [writeValue_absent types hk key p data habs, hhook, setStage_undef, typeSetStage_undef]

/-- A defined write-pipeline value for an absent field can only come from
a declared hook that turns `undefined` into a defined value. -/
theorem hookStage_ne_undef (hk : Option Hook) (p : PropertySpec)
    (h : hookStage hk p .undef ≠ .undef) :
    ∃ hkName hfun, hk = some hkName ∧ hookFn p hkName = some hfun ∧
      hfun .undef ≠ .undef := by
  rcases hk with _ | hkk
  · exact absurd rfl h
  · rcases hdecl : hookFn p hkk with _ | hf
    · exfalso
      apply h
      simp [hookStage, hdecl]
    · refine ⟨hkk, hf, rfl, hdecl, ?_⟩
      intro hf0
      apply h
      simp [hookStage, hdecl, hf0]

/-- For an absent field the read pipeline always keeps `undefined`. -/
theorem readValue_absent (types : String → Option TypeDesc) (key : String)
    (p : PropertySpec) (data : List (String × Value))
    (habs : containsKey data key = false) :
    readValue types key p data = .undef := by
  unfold readValue
  rw [habs]
  simp [typeGetStage_undef, getStage_undef]

/-- The write-back step `storeField` never removes a key. -/
theorem containsKey_storeField_of (data : List (String × Value)) (key k : String)
    (v : Value) (h : containsKey data k = true) :
    containsKey (storeField data key v) k = true := by
  unfold storeField
  split
  · rw [containsKey_setKey]; simp [h]
  · split
    · exact h
    · rw [containsKey_append]; simp [h]

/-- A key of `storeField`'s output was in the document, or it is the
stored key with a defined value on a previously absent field. -/
theorem containsKey_storeField (data : List (String × Value)) (key k : String) (v : Value)
    (h : containsKey (storeField data key v) k = true) :
    containsKey data k = true ∨
      (k = key ∧ containsKey data key = false ∧ isUndef v = false) := by
  unfold storeField at h
  by_cases hhas : containsKey data key
  · rw [if_pos hhas, containsKey_setKey] at h
    rcases Bool.or_eq_true_iff.mp h with h1 | h1
    · exact Or.inl h1
    · have : key = k := by simpa using h1
      subst this
      exact Or.inl hhas
  · rw [if_neg hhas] at h
    by_cases hu : isUndef v
    · rw [if_pos hu] at h
      exact Or.inl h
    · rw [if_neg hu, containsKey_append] at h
      rcases Bool.or_eq_true_iff.mp h with h1 | h1
      · exact Or.inl h1
      · have hkk : key = k := by
          simpa [containsKey, lookupStr] using h1
        refine Or.inr ⟨hkk.symm, by simpa using hhas, by simpa using hu⟩

/-- Keys already present in the document survive the write pipeline. -/
theorem formatWriteData_keeps_keys (types : String → Option TypeDesc) (hk : Option Hook) :
    ∀ (props : List (String × PropertySpec)) (data : List (String × Value)) (k : String),
      containsKey data k = true →
      containsKey (formatWriteData types hk props data) k = true := by
  intro props
  induction props with
  | nil => intro data k h; simpa [formatWriteData] using h
  | cons kp rest ih =>
      intro data k h
      rcases kp with ⟨key, property⟩
      rw [formatWriteData]
      exact ih _ k (containsKey_storeField_of _ _ _ _ h)

/-- A key of the write pipeline's output was in the input document, or its
property declares the named hook and that hook turns `undefined` into a
defined value. -/
theorem formatWriteData_mem_keys (types : String → Option TypeDesc) (hk : Option Hook) :
    ∀ (props : List (String × PropertySpec)) (data : List (String × Value)) (k : String),
      containsKey (formatWriteData types hk props data) k = true →
      containsKey data k = true ∨
        ∃ p hkName hfun, (k, p) ∈ props ∧ hk = some hkName ∧
          hookFn p hkName = some hfun ∧ hfun .undef ≠ .undef := by
  intro props
  induction props with
  | nil =>
      intro data k h
      exact Or.inl (by simpa [formatWriteData] using h)
  | cons kp rest ih =>
      intro data k h
      rcases kp with ⟨key, property⟩
      rw [formatWriteData] at h
      rcases ih _ k h with hin | ⟨p, hkName, hfun, hmem, hhk, hdecl, hdef⟩
      · rcases containsKey_storeField _ _ _ _ hin with h1 | ⟨hkk, habs, hdefined⟩
        · exact Or.inl h1
        · subst hkk
          have hne : writeValue types hk k property data ≠ .undef := by
            intro hu
            rw [hu] at hdefined
            simp [isUndef] at hdefined
          have hhne : hookStage hk property .undef ≠ .undef := by
            intro hh
            exact hne (writeValue_absent_undef types hk k property data habs hh)
          obtain ⟨hkName, hfun, hhk, hdecl, hdef⟩ := hookStage_ne_undef hk property hhne
          exact Or.inr ⟨property, hkName, hfun, List.mem_cons_self _ _, hhk, hdecl, hdef⟩
      · exact Or.inr ⟨p, hkName, hfun, List.mem_cons_of_mem _ hmem, hhk, hdecl, hdef⟩

/-- The read pipeline never introduces a key absent from the raw record. -/
theorem formatReadData_mem_keys (types : String → Option TypeDesc) :
    ∀ (props : List (String × PropertySpec)) (data : List (String × Value)) (k : String),
      containsKey (formatReadData types props data) k = true →
      containsKey data k = true := by
  intro props
  induction props with
  | nil =>
      intro data k h
      simpa [formatReadData] using h
  | cons kp rest ih =>
      intro data k h
      rcases kp with ⟨key, property⟩
      rw [formatReadData] at h
      rcases containsKey_storeField _ _ _ _ (ih _ k h) with h1 | ⟨hkk, habs, hdefined⟩
      · exact h1
      · subst hkk
        exfalso
        rw [readValue_absent types k property data habs] at hdefined
        simp [isUndef] at hdefined

/-- C2: the write pipeline's output contains no field that was absent from
the input document unless the named lifecycle hook of that field's
property produced a defined value from `undefined` (no default is applied
in this pipeline), and the read pipeline's output contains no field that
was absent from the raw input record. -/
theorem C2_presence_law (types : String → Option TypeDesc) (hk : Option Hook)
    (props : List (String × PropertySpec)) (data rdata : List (String × Value))
    (k : String) :
    (containsKey (formatWriteData types hk props data) k = true →
      containsKey data k = true ∨
        ∃ p hkName hfun, (k, p) ∈ props ∧ hk = some hkName ∧
          hookFn p hkName = some hfun ∧ hfun .undef ≠ .undef) ∧
    (containsKey (formatReadData types props rdata) k = true →
      containsKey rdata k = true) :=
  ⟨formatWriteData_mem_keys types hk props data k,
   formatReadData_mem_keys types props rdata k⟩

/-- Witness for C2 at a concrete schema: the write-pipeline output owns
`a` only through the hook, and the read-pipeline output owns `a` because
the record did. -/
theorem C2_presence_law_witness :
    (containsKey ([] : List (String × Value)) "a" = true ∨
      ∃ p hkName hfun, ("a", p) ∈ [("a", exHookProp)] ∧
        (some Hook.onUpdate) = some hkName ∧
        hookFn p hkName = some hfun ∧ hfun .undef ≠ .undef) ∧
    containsKey [("a", Value.str "q")] "a" = true :=
  ⟨(C2_presence_law typesLookup (some .onUpdate) [("a", exHookProp)] []
      [("a", .str "q")] "a").1 rfl,
   (C2_presence_law typesLookup (some .onUpdate) [("a", exHookProp)] []
      [("a", .str "q")] "a").2 rfl⟩

/-- C3: on a document whose fields up to position `i` validate, whose
field at position `i` fails, and which contains a second failing field
later, the engine raises exactly the one error of the first failing field
(fail-fast), with the message prefixed
`Error validating <prefix><field>: <original message>`. -/
theorem C3_validate_failfast (types : String → Option TypeDesc)
    (props : List (String × PropertySpec)) (front : List (String × Value))
    (ki : String) (vi : Value) (back : List (String × Value)) (pre e : String)
    (hfront : ∀ kv ∈ front, validateField types props kv.1 kv.2 = .ok ())
    (hfirst : validateField types props ki vi = .error e)
    (hsecond : ∃ kv ∈ back, ∃ e2, validateField types props kv.1 kv.2 = .error e2) :
    validateData types props (front ++ (ki, vi) :: back) pre
      = .error ("Error validating " ++ pre ++ ki ++ ": " ++ e) := by
  induction front with
  | nil =>
      rw [List.nil_append, validateData, hfirst]
  | cons kv rest ih =>
      rcases kv with ⟨k0, v0⟩
      have hok : validateField types props k0 v0 = .ok () :=
        hfront (k0, v0) (List.mem_cons_self _ _)
      rw [List.cons_append, validateData, hok]
      exact ih (fun kv hkv => hfront kv (List.mem_cons_of_mem _ hkv))

/-- Witness for C3: two numeric fields holding strings; the engine stops
at the first and wraps its message. -/
theorem C3_validate_failfast_witness :
    validateData typesLookup [("a", exNumProp), ("b", exNumProp)]
      ([] ++ ("a", Value.str "x") :: [("b", Value.str "y")]) ""
      = .error ("Error validating " ++ "" ++ "a" ++ ": "
          ++ "Expected value to be a valid number") :=
  C3_validate_failfast typesLookup [("a", exNumProp), ("b", exNumProp)] []
    "a" (.str "x") [("b", .str "y")] "" "Expected value to be a valid number"
    (by intro kv hkv; simp at hkv) rfl
    ⟨("b", .str "y"), List.mem_cons_self _ _,
      "Expected value to be a valid number", rfl⟩

/-- C5: `marshallKey` processes each input field by applying the
property-level `set` transform and then the type-level `set` transform;
a string result is emitted under the `S` tag, a numeric result under the
`N` tag carrying its decimal string, and any other result fails.  At the
scenario's input, `marshallKey` with no declared property for `email`
yields the string tag `S "x@y.com"`. -/
theorem C5_marshallKey_tags :
    (∀ (types : String → Option TypeDesc) (props : List (String × PropertySpec))
        (k : String) (v : Value) (rest : List (String × Value)),
      marshallKey types props ((k, v) :: rest)
        = match applyTypeSetK types props k (applyPropSetK props k v) with
          | .str s => (marshallKey types props rest).map (fun out => (k, .S s) :: out)
          | .num n =>
              (marshallKey types props rest).map
                (fun out => (k, .N (intDecStr n)) :: out)
          | _ => .error ("Expected key value at " ++ k ++ " to be a string or number"))
    ∧ marshallKey typesLookup [("hash", mkProp "string")] [("email", .str "x@y.com")]
        = .ok [("email", .S "x@y.com")] :=
  ⟨fun _ _ _ _ _ => rfl, rfl⟩

/-- Rule lists run left to right, stopping at the first failure. -/
theorem runRules_append
    (tvs : List (String × (Value → Value → Option PropertySpec → Except String Unit)))
    (prop : Option PropertySpec) (v : Value) :
    ∀ pre post : List (String × Rule),
      runRules tvs prop v (pre ++ post)
        = match runRules tvs prop v pre with
          | .error e => .error e
          | .ok _ => runRules tvs prop v post := by
  intro pre
  induction pre with
  | nil => intro post; simp [runRules]
  | cons r rest ih =>
      intro post
      rcases r with ⟨vk, rule⟩
      rcases rule with f | prm
      · rw [List.cons_append, runRules, runRules]
        rcases hf : f v with e | u
        · simp [hf]
        · simp [hf, ih post]
      · rw [List.cons_append, runRules, runRules]
        rcases hl : lookupStr tvs vk with _ | tv
        · simp
        · rcases htv : tv v prm prop with e | u
          · simp [htv]
          · simp [htv, ih post]

/-- C7: for a present field, the type's structural validator runs before
any property-level rule: when it fails, the field's outcome is exactly the
structural failure, whatever the property's `validate` map holds (so no
property-level validator is invoked). -/
theorem C7_type_validator_first (types : String → Option TypeDesc)
    (props : List (String × PropertySpec)) (k : String) (v : Value)
    (p : PropertySpec) (t : TypeDesc)
    (f : Value → Option PropertySpec → Except String Unit) (e : String)
    (hp : lookupStr props k = some p) (ht : types p.type = some t)
    (hf : t.validateType = some f) (he : f v (some p) = .error e) :
    validateField types props k v = .error e := by
  unfold validateField
  simp only [hp, ht, hf, he]

/-- Witness for C7: a numeric field holding a string fails structurally
and the property's rules never run. -/
theorem C7_type_validator_first_witness :
    validateField typesLookup [("a", exNumProp)] "a" (.str "x")
      = .error "Expected value to be a valid number" :=
  C7_type_validator_first typesLookup [("a", exNumProp)] "a" (.str "x")
    exNumProp numberType (mkValidateType "number")
    "Expected value to be a valid number" rfl rfl rfl rfl

/-- C8: when a reachable rule of a present field's `validate` map is a
non-function parameter, the engine looks up a same-named built-in
validator on the type: if none exists the field fails with
`Expected validator <name> to be a function`; if one exists it is invoked
with the field's value, the rule parameter and the property spec. -/
theorem C8_unknown_validator (types : String → Option TypeDesc)
    (props : List (String × PropertySpec)) (k : String) (v : Value)
    (p : PropertySpec) (t : TypeDesc) (vkey : String) (prm : Value)
    (pre post : List (String × Rule))
    (hp : lookupStr props k = some p) (ht : types p.type = some t)
    (hval : p.validate = pre ++ (vkey, Rule.param prm) :: post)
    (htv : match t.validateType with
      | some f => f v (some p) = .ok ()
      | none => True)
    (hpre : runRules t.validators (some p) v pre = .ok ()) :
    validateField types props k v
      = match lookupStr t.validators vkey with
        | some tv =>
            match tv v prm (some p) with
            | .error e => .error e
            | .ok _ => runRules t.validators (some p) v post
        | none => .error ("Expected validator " ++ vkey ++ " to be a function") := by
  unfold validateField
  simp only [hp, ht, hval]
  rcases hvt : t.validateType with _ | f
  · rw [runRules_append, hpre, runRules]
  · rw [hvt] at htv
    simp only [htv]
    rw [runRules_append, hpre, runRules]

/-- Witness for C8: the rule `isWeird` is not a function and the text kind
declares no built-in of that name, so validation fails with the
unknown-validator error. -/
theorem C8_unknown_validator_witness :
    validateField typesLookup [("a", exUnknownProp)] "a" (.str "ok")
      = .error ("Expected validator " ++ "isWeird" ++ " to be a function") :=
  C8_unknown_validator typesLookup [("a", exUnknownProp)] "a" (.str "ok")
    exUnknownProp stringType "isWeird" (.bool true) [] []
    rfl rfl rfl rfl rfl

/-- C9 is refuted at this input: the property declares an `onUpdate` hook
returning the defined string `"x"` and the field is absent, yet the write
pipeline does not add the field, because the property's `set` transform
maps the hook's value back to `undefined`. -/
theorem C9_counterexample :
    hookFn exC9Prop .onUpdate = some exHookFn ∧
    exHookFn .undef = .str "x" ∧
    containsKey (formatWriteData typesLookup (some .onUpdate) [("a", exC9Prop)] [])
      "a" = false :=
  ⟨rfl, rfl, rfl⟩

/-- C9 amended: the write pipeline invokes the named hook for a property
that declares it even when the field is absent — the hook receives
`undefined` — and the previously absent field is added when the value
remaining after the hook and the subsequent `set` transforms is
defined. -/
theorem C9_amended_hook_invocation (types : String → Option TypeDesc) (hkName : Hook)
    (key : String) (p : PropertySpec) (h : Value → Value)
    (rest : List (String × PropertySpec)) (data : List (String × Value))
    (habs : containsKey data key = false) (hhook : hookFn p hkName = some h) :
    (writeValue types (some hkName) key p data
        = typeSetStage types p false (setStage p false (h .undef)))
    ∧ (isUndef (typeSetStage types p false (setStage p false (h .undef))) = false →
        containsKey (formatWriteData types (some hkName) ((key, p) :: rest) data) key
          = true) := by
  have hwv : writeValue types (some hkName) key p data
      = typeSetStage types p false (setStage p false (h .undef)) := by
    rw [writeValue_absent types (some hkName) key p data habs]
    simp [hookStage, hhook]
  refine ⟨hwv, ?_⟩
  intro hdef
  rw [formatWriteData]
  apply formatWriteData_keeps_keys
  unfold storeField
  rw [habs]
  simp only [Bool.false_eq_true, if_false, hwv, hdef, if_false]
  rw [containsKey_append]
  simp [containsKey, lookupStr]

/-- Witness for the amended C9: with no `set` transform in the way the
hook's value survives and the absent field is added. -/
theorem C9_amended_hook_invocation_witness :
    containsKey (formatWriteData typesLookup (some .onUpdate) [("a", exHookProp)] [])
      "a" = true :=
  (C9_amended_hook_invocation typesLookup .onUpdate "a" exHookProp exHookFn [] []
    rfl rfl).2 rfl

/-- C10: fields of the document that are not declared in the property
schema contribute nothing to validation — the engine's outcome on any
document equals its outcome on the document restricted to declared
fields, so undeclared fields run no validators and raise no error. -/
theorem C10_undeclared_fields_pass (props : List (String × PropertySpec))
    (data : List (String × Value)) (pre : String) :
    validateData typesLookup props data pre
      = validateData typesLookup props
          (data.filter (fun kv => containsKey props kv.1)) pre := by
  induction data with
  | nil => rfl
  | cons kv rest ih =>
      rcases kv with ⟨k, v⟩
      by_cases hdec : containsKey props k
      · rw [List.filter_cons]
        simp only [hdec, decide_eq_true_eq, if_true]
        rw [validateData, validateData]
        rcases hval : validateField typesLookup props k v with e | u
        · rfl
        · exact ih
      · have hnone : lookupStr props k = none := by
          rcases hx : lookupStr props k with _ | p
          · rfl
          · exact absurd (by simp [containsKey, hx]) hdec
        have hok : validateField typesLookup props k v = .ok () := by
          unfold validateField
          simp only [hnone]
          have hn : typesLookup "null" = none := rfl
          simp [hn, runRules]
        rw [List.filter_cons]
        rw [if_neg (by simpa using hdec)]
        rw [validateData, hok]
        exact ih

/-- A compile phase that reached past the required-update assertion saw
neither the hash nor the range key field in the update. -/
theorem assertRequired_ok_keys (ks : KeySchema) (props : List (String × PropertySpec))
    (update : List (String × Value)) (u : Unit)
    (h : assertRequiredUpdateProps ks props update = .ok u) :
    containsKey update ks.hash = false ∧
      ∀ r, ks.range = some r → containsKey update r = false := by
  unfold assertRequiredUpdateProps at h
  by_cases h1 : containsKey update ks.hash
  · rw [if_pos h1] at h
    exact absurd h (by simp)
  · rw [if_neg h1] at h
    refine ⟨by simpa using h1, ?_⟩
    intro r hr
    rw [hr] at h
    dsimp only at h
    by_cases h2 : containsKey update r
    · rw [if_pos h2] at h
      exact absurd h (by simp)
    · simpa using h2

/-- Every field with a SET or REMOVE clause is a field of the compiled
document. -/
theorem mem_stringify_fields (update : List (String × Value)) (k : String)
    (h : k ∈ (stringifyUpdateStatement update).sets ∨
      k ∈ (stringifyUpdateStatement update).removes) :
    containsKey update k = true := by
  have hmem : ∃ v, (k, v) ∈ update := by
    rcases h with h | h
    · unfold stringifyUpdateStatement at h
      dsimp only at h
      rcases List.mem_map.mp h with ⟨kv, hkv, hfst⟩
      refine ⟨kv.2, ?_⟩
      have : (k, kv.2) = kv := by
        rcases kv with ⟨k0, v0⟩
        simp at hfst
        simp [hfst]
      rw [this]
      exact (List.mem_filter.mp hkv).1
    · unfold stringifyUpdateStatement at h
      dsimp only at h
      rcases List.mem_map.mp h with ⟨kv, hkv, hfst⟩
      refine ⟨kv.2, ?_⟩
      have : (k, kv.2) = kv := by
        rcases kv with ⟨k0, v0⟩
        simp at hfst
        simp [hfst]
      rw [this]
      exact (List.mem_filter.mp hkv).1
  obtain ⟨v, hv⟩ := hmem
  exact containsKey_of_mem hv

/-- C4 is refuted on its second half at this input: the update does not
name the key field, compiling succeeds, but the `onUpdate` hook declared
on the hash key property injects a value for it, so the compiled
expression carries a SET clause for the primary-key field `id`. -/
theorem C4_counterexample :
    exKS.hash = "id" ∧
    (match compileUpdate typesLookup exKS [("id", exC4KeyProp), ("n", mkProp "number")]
        [("n", .num 5)] with
      | .ok out => decide ("id" ∈ out.sets)
      | .error _ => false) = true :=
  ⟨rfl, rfl⟩

/-- C4 amended: a partial update naming the hash or range key field fails
with `ImmutableKeyError`; and provided no primary-key property declares an
`onUpdate` hook, a compiled update expression never contains a SET or
REMOVE clause referencing a primary-key field. -/
theorem C4_amended_update_immutability (types : String → Option TypeDesc)
    (ks : KeySchema) (props : List (String × PropertySpec))
    (update : List (String × Value)) :
    ((containsKey update ks.hash = true ∨
        (∃ r, ks.range = some r ∧ containsKey update r = true)) →
      ∃ f, compileUpdate types ks props update = .error (.immutableKey f))
    ∧ (∀ out, compileUpdate types ks props update = .ok out →
        (∀ p, (ks.hash, p) ∈ props → p.onUpdate = none) →
        (∀ r p, ks.range = some r → (r, p) ∈ props → p.onUpdate = none) →
        ¬ (ks.hash ∈ out.sets ∨ ks.hash ∈ out.removes ∨
           ∃ r, ks.range = some r ∧ (r ∈ out.sets ∨ r ∈ out.removes))) := by
  constructor
  · intro hkey
    by_cases hh : containsKey update ks.hash
    · refine ⟨ks.hash, ?_⟩
      unfold compileUpdate assertRequiredUpdateProps
      rw [if_pos hh]
    · rcases hkey with hkey | ⟨r, hr, hrc⟩
      · exact absurd hkey hh
      · refine ⟨r, ?_⟩
        unfold compileUpdate assertRequiredUpdateProps
        rw [if_neg hh, hr]
        dsimp only
        rw [if_pos hrc]
  · intro out hok hnohash hnorange
    unfold compileUpdate at hok
    rcases har : assertRequiredUpdateProps ks props update with e | u
    · rw [har] at hok
      exact absurd hok (by simp)
    · rw [har] at hok
      rcases hval : validateData types props update "" with e | u2
      · rw [hval] at hok
        exact absurd hok (by simp)
      · rw [hval] at hok
        have hout : out = stringifyUpdateStatement (formatUpdateData types props update) :=
          (Except.ok.inj hok).symm
        obtain ⟨hh, hrange⟩ := assertRequired_ok_keys ks props update u har
        have hfield : ∀ k : String,
            (k ∈ out.sets ∨ k ∈ out.removes) →
            containsKey update k = true ∨
              ∃ p, (k, p) ∈ props ∧ p.onUpdate ≠ none := by
          intro k hk
          rw [hout] at hk
          have hfd : containsKey (formatUpdateData types props update) k = true :=
            mem_stringify_fields _ k hk
          unfold formatUpdateData at hfd
          rcases formatWriteData_mem_keys types (some .onUpdate) props update k hfd with
            hin | ⟨p, hkName, hfun, hmem, hhk, hdecl, _⟩
          · exact Or.inl hin
          · refine Or.inr ⟨p, hmem, ?_⟩
            have : hkName = Hook.onUpdate := (Option.some.inj hhk).symm
            subst this
            intro hnone
            rw [show hookFn p Hook.onUpdate = p.onUpdate from rfl, hnone] at hdecl
            exact Option.noConfusion hdecl
        intro hcontra
        rcases hcontra with hmem | hmem | ⟨r, hr, hmem⟩
        · rcases hfield ks.hash (Or.inl hmem) with hin | ⟨p, hpmem, hhk⟩
          · rw [hh] at hin
            exact Bool.noConfusion hin
          · exact hhk (hnohash p hpmem)
        · rcases hfield ks.hash (Or.inr hmem) with hin | ⟨p, hpmem, hhk⟩
          · rw [hh] at hin
            exact Bool.noConfusion hin
          · exact hhk (hnohash p hpmem)
        · rcases hfield r hmem with hin | ⟨p, hpmem, hhk⟩
          · rw [hrange r hr] at hin
            exact Bool.noConfusion hin
          · exact hhk (hnorange r p hr hpmem)

/-- Witness for the amended C4: an update naming the hash key is rejected
with the immutable-key error, and a hook-free schema compiles with no
clause for the key field. -/
theorem C4_amended_update_immutability_witness :
    (∃ f, compileUpdate typesLookup exKS [("id", mkProp "string"), ("n", mkProp "number")]
        [("id", .str "x")] = .error (.immutableKey f)) ∧
    ¬ (exKS.hash ∈ (stringifyUpdateStatement (formatUpdateData typesLookup
          [("id", mkProp "string"), ("n", mkProp "number")] [("n", .num 5)])).sets ∨
       exKS.hash ∈ (stringifyUpdateStatement (formatUpdateData typesLookup
          [("id", mkProp "string"), ("n", mkProp "number")] [("n", .num 5)])).removes ∨
       ∃ r, exKS.range = some r ∧
         (r ∈ (stringifyUpdateStatement (formatUpdateData typesLookup
            [("id", mkProp "string"), ("n", mkProp "number")] [("n", .num 5)])).sets ∨
          r ∈ (stringifyUpdateStatement (formatUpdateData typesLookup
            [("id", mkProp "string"), ("n", mkProp "number")] [("n", .num 5)])).removes)) := by
  constructor
  · exact (C4_amended_update_immutability typesLookup exKS
      [("id", mkProp "string"), ("n", mkProp "number")] [("id", .str "x")]).1
      (Or.inl rfl)
  · refine (C4_amended_update_immutability typesLookup exKS
      [("id", mkProp "string"), ("n", mkProp "number")] [("n", .num 5)]).2 _ rfl ?_ ?_
    · intro p hp
      simp only [List.mem_cons, List.not_mem_nil, or_false, Prod.mk.injEq] at hp
      rcases hp with ⟨h1, h2⟩ | ⟨h1, h2⟩
      · subst h2; rfl
      · exact absurd h1 (by decide)
    · intro r p hr
      exact absurd hr (by simp [exKS])

/-- C6 is refuted at this input: the property's `set` transform coerces
the invalid string to a valid number, so the spec's order (pipeline before
validation) would succeed, but the compile phase validates the raw update
first and fails. -/
theorem C6_counterexample :
    isOkE (compileUpdate typesLookup exKS [("n", exC6SetProp)] [("n", .str "bad")])
        = false ∧
    isOkE (compileUpdateSpecOrder typesLookup exKS [("n", exC6SetProp)]
        [("n", .str "bad")]) = true :=
  ⟨rfl, rfl⟩

/-- C6 amended: the compile phase performs the required-update assertion
first; on success it runs the validation engine over exactly the fields
present in the raw partial document, and only if that passes does it run
the write-pipeline subset (onUpdate hooks and `set` transforms) and
compile the expression. -/
theorem C6_amended_compile_order (types : String → Option TypeDesc) (ks : KeySchema)
    (props : List (String × PropertySpec)) (update : List (String × Value)) :
    (∀ e, assertRequiredUpdateProps ks props update = .error e →
        compileUpdate types ks props update = .error e)
    ∧ (assertRequiredUpdateProps ks props update = .ok () →
        ∀ e, validateData types props update "" = .error e →
          compileUpdate types ks props update = .error (.validation e))
    ∧ (assertRequiredUpdateProps ks props update = .ok () →
        validateData types props update "" = .ok () →
        compileUpdate types ks props update
          = .ok (stringifyUpdateStatement (formatUpdateData types props update))) := by
  refine ⟨?_, ?_, ?_⟩
  · intro e he
    unfold compileUpdate
    rw [he]
  · intro hr e he
    unfold compileUpdate
    rw [hr, he]
  · intro hr hv
    unfold compileUpdate
    rw [hr, hv]

/-- Witness for the amended C6: at the counterexample's input the raw
update fails validation, so the compile phase surfaces the validation
error without running the pipeline. -/
theorem C6_amended_compile_order_witness :
    compileUpdate typesLookup exKS [("n", exC6SetProp)] [("n", .str "bad")]
      = .error (.validation ("Error validating " ++ "" ++ "n" ++ ": "
          ++ "Expected value to be a valid number")) :=
  (C6_amended_compile_order typesLookup exKS [("n", exC6SetProp)]
    [("n", .str "bad")]).2.1 rfl _ rfl

end Dynazord

